import Mathlib

/-!
Verification of the expenditure-analysis ledger core.

The definitions below are a shallow embedding of the Python sources:
the SQLAlchemy rows of src/database.py become plain structures, the
query/loop bodies of Database and of the import and categorization
drivers become Lean functions, and monetary amounts are modelled as
exact rationals.  Dates are modelled as ordinals (the code only
compares and sorts them).
-/

namespace Expenditure


/-- Ledger entry, embedded from the Expense table of src/database.py.
Nullable foreign keys become Option Nat. -/
structure Expense where
  id : Nat
  date : Nat
  description : String
  amount : ℚ
  is_credit : Bool
  category_id : Option Nat
  account_id : Option Nat
  is_transfer : Bool
  target_account_id : Option Nat
deriving DecidableEq

/-- Account row from src/database.py, including the stored balance column. -/
structure Account where
  id : Nat
  name : String
  is_main : Bool
  balance : ℚ
deriving DecidableEq

/-- Python truthiness of a nullable integer id column: None and 0 are falsy.
The code tests ids with bare `if expense.account_id:` style conditions. -/
def truthyId : Option Nat → Bool
  | none => false
  | some n => n != 0

/-- Chronological order used by the code: ORDER BY date, id in
Database.get_account_balance and sorted(key=(date, id)) in
Database.get_expenses_with_balance. -/
def expLe (a b : Expense) : Prop :=
  a.date < b.date ∨ (a.date = b.date ∧ a.id ≤ b.id)

instance : DecidableRel expLe := fun a b => by
  unfold expLe; exact inferInstance

/-- Stable chronological sort shared by both balance derivations. -/
def sortExpenses (l : List Expense) : List Expense :=
  List.insertionSort expLe l

/-- One iteration of the balance loop of Database.get_account_balance:
when the account is the source, a set target means transfer (always
subtract), otherwise credit adds and debit subtracts; when the account is
only the target, always add. -/
def gabStep (aid : Nat) (b : ℚ) (e : Expense) : ℚ :=
  if e.account_id = some aid then
    if truthyId e.target_account_id then b - e.amount
    else if e.is_credit then b + e.amount
    else b - e.amount
  else if e.target_account_id = some aid then b + e.amount
  else b

/-- The filter of the query in Database.get_account_balance: transactions
where the account is source or target. -/
def touches (aid : Nat) (e : Expense) : Bool :=
  e.account_id == some aid || e.target_account_id == some aid

/-- Database.get_account_balance: query all transactions touching the
account, order chronologically, start at zero and fold the loop body. -/
def get_account_balance (aid : Nat) (l : List Expense) : ℚ :=
  if (sortExpenses (l.filter (touches aid))).isEmpty then 0
  else (sortExpenses (l.filter (touches aid))).foldl (gabStep aid) 0

/-- Signed contribution of one transaction to one account, read off the
branch structure of Database.get_account_balance. -/
def contrib (aid : Nat) (e : Expense) : ℚ :=
  if e.account_id = some aid then
    if truthyId e.target_account_id then -e.amount
    else if e.is_credit then e.amount
    else -e.amount
  else if e.target_account_id = some aid then e.amount
  else 0

/-! Ledger state and the mutating operations of src/database.py and the
transfer-marking commit of src/categorizer.py. -/

/-- Accounts plus transaction history plus the autoincrement counter. -/
structure LedgerState where
  accounts : List Account
  expenses : List Expense
  nextId : Nat
deriving DecidableEq

/-- The stored balance column of an account, as read from the Account row. -/
def storedBalance (s : LedgerState) (aid : Nat) : ℚ :=
  match s.accounts.find? (fun a => a.id == aid) with
  | some a => a.balance
  | none => 0

/-- Database.add_expense: inserts the row and commits; no account balance
column is touched anywhere in this method. -/
def ledgerAddExpense (s : LedgerState) (d : Nat) (desc : String) (amt : ℚ)
    (ic : Bool) (cat : Option Nat) (acct : Option Nat)
    (itr : Bool) (tgt : Option Nat) : LedgerState :=
  { s with
    expenses := s.expenses ++ [⟨s.nextId, d, desc, amt, ic, cat, acct, itr, tgt⟩],
    nextId := s.nextId + 1 }

/-- Database.delete_expense: removes the row with the given primary key and
commits; no account balance column is touched. -/
def ledgerDeleteExpense (s : LedgerState) (eid : Nat) : LedgerState :=
  { s with expenses := s.expenses.filter (fun e => e.id != eid) }

/-- Database.update_expense with a new amount: overwrites the amount field of
the row and commits; no account balance column is touched. -/
def ledgerEditAmount (s : LedgerState) (eid : Nat) (amt : ℚ) : LedgerState :=
  { s with expenses := s.expenses.map (fun e =>
      if e.id == eid then { e with amount := amt } else e) }

/-- Stored-balance mutation used by the categorizer transfer commits. -/
def adjustBalance (accounts : List Account) (aid : Nat) (delta : ℚ) :
    List Account :=
  accounts.map (fun a =>
    if a.id == aid then { a with balance := a.balance + delta } else a)

/-- The expense-row mutation of the transfer commit in
InteractiveCategorizer.categorize_expenses: set is_transfer and point
target_account at the actual target chosen by is_credit (credit means the
main account receives, debit means the other account receives). -/
def markExpense (e : Expense) (mainId otherId : Nat) : Expense :=
  { e with
    is_transfer := true,
    target_account_id := some (if e.is_credit then mainId else otherId) }

/-- The transfer commit of InteractiveCategorizer.categorize_expenses: mark
the expense and apply the dual stored-balance adjustment (subtract from the
actual source, add to the actual target). -/
def ledgerMarkTransfer (s : LedgerState) (eid mainId otherId : Nat) :
    LedgerState :=
  match s.expenses.find? (fun e => e.id == eid) with
  | none => s
  | some e =>
    let actualSource := if e.is_credit then otherId else mainId
    let actualTarget := if e.is_credit then mainId else otherId
    { s with
      expenses := s.expenses.map (fun x =>
        if x.id == eid then markExpense x mainId otherId else x),
      accounts := adjustBalance
        (adjustBalance s.accounts actualSource (-e.amount))
        actualTarget e.amount }

/-- The mutating operations named by invariant I1. -/
inductive LedgerOp where
  | addExp (d : Nat) (desc : String) (amt : ℚ) (ic : Bool)
      (cat acct : Option Nat) (itr : Bool) (tgt : Option Nat)
  | markTransfer (eid mainId otherId : Nat)
  | delExp (eid : Nat)
  | editAmount (eid : Nat) (amt : ℚ)
deriving DecidableEq

def applyLedgerOp (s : LedgerState) : LedgerOp → LedgerState
  | .addExp d desc amt ic cat acct itr tgt =>
      ledgerAddExpense s d desc amt ic cat acct itr tgt
  | .markTransfer eid mainId otherId => ledgerMarkTransfer s eid mainId otherId
  | .delExp eid => ledgerDeleteExpense s eid
  | .editAmount eid amt => ledgerEditAmount s eid amt

def runLedgerOps (s : LedgerState) (ops : List LedgerOp) : LedgerState :=
  ops.foldl applyLedgerOp s

/-- Fresh ledger with one main account A (id 1) at stored balance zero. -/
def c1Init : LedgerState := ⟨[⟨1, "A", true, 0⟩], [], 1⟩

/-- Ledger with accounts A (id 1, main) and B (id 2), no transactions. -/
def c2Start : LedgerState := ⟨[⟨1, "A", true, 0⟩, ⟨2, "B", false, 0⟩], [], 1⟩

/-- State after recording a plain debit of 50 from account A. -/
def c2Debit : LedgerState :=
  ledgerAddExpense c2Start 0 "RENT" 50 false none (some 1) false none

/-- State after recording a transfer of 30 from account A to account B. -/
def c2Transfer : LedgerState :=
  ledgerAddExpense c2Start 0 "MOVE" 30 false none (some 1) true (some 2)

/-! Running-balance derivation, embedded from
Database.get_expenses_with_balance.  The per-account dictionary becomes a
total map defaulting to zero (the code initializes missing keys to 0.0). -/

/-- One iteration of the running-balance loop: update the per-account map and
produce the balance displayed after this transaction.  Rows whose account id
is falsy leave the map alone and display 0. -/
def ewbStep (m : Nat → ℚ) (e : Expense) : (Nat → ℚ) × ℚ :=
  if truthyId e.account_id then
    let src := e.account_id.getD 0
    if e.is_transfer && truthyId e.target_account_id then
      let tgt := e.target_account_id.getD 0
      let m1 := Function.update m src (m src - e.amount)
      let m2 := Function.update m1 tgt (m1 tgt + e.amount)
      (m2, m2 src)
    else if e.is_credit then
      let m1 := Function.update m src (m src + e.amount)
      (m1, m1 src)
    else
      let m1 := Function.update m src (m src - e.amount)
      (m1, m1 src)
  else (m, 0)

/-- The accumulation loop of Database.get_expenses_with_balance, returning
both the displayed rows and the final per-account balance map. -/
def ewbGo (m : Nat → ℚ) : List Expense → List (Expense × ℚ) × (Nat → ℚ)
  | [] => ([], m)
  | e :: rest =>
    let s := ewbStep m e
    let r := ewbGo s.1 rest
    ((e, s.2) :: r.1, r.2)

/-- Database.get_expenses_with_balance: sort chronologically by (date, id),
start every account at zero, accumulate, and reverse when descending display
order is requested. -/
def get_expenses_with_balance (l : List Expense) (order_desc : Bool) :
    List (Expense × ℚ) :=
  if l.isEmpty then []
  else
    if order_desc then ((ewbGo (fun _ => 0) (sortExpenses l)).1).reverse
    else (ewbGo (fun _ => 0) (sortExpenses l)).1

/-- The final per-account balance map accumulated by the running-balance loop
of Database.get_expenses_with_balance. -/
def ewbFinalBalances (l : List Expense) : Nat → ℚ :=
  (ewbGo (fun _ => 0) (sortExpenses l)).2

/-- Hypothesis of claim C10 on one transaction: it has a (real, positive-id)
source account and has a target account set exactly when it is a transfer. -/
def SrcTgtConsistent (e : Expense) : Prop :=
  (∃ s, e.account_id = some s ∧ 0 < s) ∧
  (if e.is_transfer then ∃ t, e.target_account_id = some t ∧ 0 < t
   else e.target_account_id = none)

/-- Hypothesis of the amended claim C10: additionally, the transaction is not
a self-transfer. -/
def SrcTgtSound (e : Expense) : Prop :=
  SrcTgtConsistent e ∧
  (e.is_transfer = true → e.target_account_id ≠ e.account_id)

/-- Transfer from account 1 to account 1 itself: it has a source account and
a target account set with is_transfer true, so it satisfies the hypotheses of
claim C10 as stated. -/
def c10SelfTransfer : Expense := ⟨1, 0, "SELF", 30, false, none, some 1, true, some 1⟩

/-! Pattern matching engine, embedded from Database.find_category_by_description,
Database.find_transfer_by_description and the rule-creation methods. -/

/-- Contiguous sublist test on character lists. -/
def subList (pat : List Char) : List Char → Bool
  | [] => pat.isEmpty
  | c :: rest => pat.isPrefixOf (c :: rest) || subList pat rest

/-- The Python substring operator `pat in hay`. -/
def strContains (hay pat : String) : Bool := subList pat.data hay.data

/-- Python str.upper (the sources only uppercase ASCII bank text). -/
def strUpper (s : String) : String := ⟨s.data.map Char.toUpper⟩

/-- Category rule row from src/database.py. -/
structure CategoryIndicator where
  pattern : String
  amount : Option ℚ
  is_credit : Option Bool
  category_id : Nat
deriving DecidableEq

/-- Database.add_category_indicator: stores the uppercased pattern without
any validation of the pattern. -/
def add_category_indicator (rules : List CategoryIndicator) (pattern : String)
    (cid : Nat) (amt : Option ℚ) (ic : Option Bool) : List CategoryIndicator :=
  rules ++ [⟨strUpper pattern, amt, ic, cid⟩]

/-- Sort key of the ORDER BY clause in Database.find_category_by_description:
amount IS NOT NULL, descending. -/
def amtKey (r : CategoryIndicator) : Nat := if r.amount.isSome then 1 else 0

/-- The ORDER BY of Database.find_category_by_description: rules with an
amount first, then longest pattern first. -/
def catOrder (a b : CategoryIndicator) : Prop :=
  amtKey b < amtKey a ∨ (amtKey a = amtKey b ∧ b.pattern.length ≤ a.pattern.length)

instance : DecidableRel catOrder := fun a b => by
  unfold catOrder; exact inferInstance

instance : IsTotal CategoryIndicator catOrder :=
  ⟨fun a b => by
    unfold catOrder amtKey
    cases ha : a.amount.isSome <;> cases hb : b.amount.isSome <;>
      simp [ha, hb] <;> omega⟩

instance : IsTrans CategoryIndicator catOrder :=
  ⟨fun a b c hab hbc => by
    unfold catOrder amtKey at hab hbc ⊢
    cases ha : a.amount.isSome <;> cases hb : b.amount.isSome <;>
      cases hc : c.amount.isSome <;>
      simp [ha, hb, hc] at hab hbc ⊢ <;> omega⟩

/-- The rule list in the priority order produced by the query of
Database.find_category_by_description. -/
def rankedIndicators (rules : List CategoryIndicator) : List CategoryIndicator :=
  List.insertionSort catOrder rules

/-- First continue guard of the scan loop: the rule has an amount requirement
and the queried amount is missing or differs by more than 0.01. -/
def amountGuard (ramt : Option ℚ) (amount : Option ℚ) : Bool :=
  match ramt, amount with
  | some _, none => true
  | some ra, some a => decide ((1 : ℚ)/100 < |a - ra|)
  | none, _ => false

/-- Second continue guard of the scan loop: the rule has a credit requirement
and the queried flag is missing or different. -/
def creditGuard (ric : Option Bool) (is_credit : Option Bool) : Bool :=
  match ric, is_credit with
  | some _, none => true
  | some rc, some c => rc != c
  | none, _ => false

/-- The scan loop of Database.find_category_by_description with its three
continue guards. -/
def scanIndicators (du : String) (amount : Option ℚ) (is_credit : Option Bool) :
    List CategoryIndicator → Option Nat
  | [] => none
  | r :: rest =>
    if !(strContains du r.pattern) then scanIndicators du amount is_credit rest
    else if amountGuard r.amount amount then
      scanIndicators du amount is_credit rest
    else if creditGuard r.is_credit is_credit then
      scanIndicators du amount is_credit rest
    else some r.category_id

/-- Database.find_category_by_description: uppercase the description, rank
the rules, scan. -/
def find_category_by_description (rules : List CategoryIndicator)
    (description : String) (amount : Option ℚ) (is_credit : Option Bool) :
    Option Nat :=
  scanIndicators (strUpper description) amount is_credit (rankedIndicators rules)

/-- Amount condition stated by claim C4: the qualifier, when present, must be
within 0.01 of the transaction amount. -/
def amountOk (ramt : Option ℚ) (amount : Option ℚ) : Bool :=
  match ramt, amount with
  | some _, none => false
  | some ra, some a => decide (|a - ra| ≤ (1 : ℚ)/100)
  | none, _ => true

/-- Credit condition stated by claim C4: the qualifier, when present, must
equal the transaction flag. -/
def creditOk (ric : Option Bool) (is_credit : Option Bool) : Bool :=
  match ric, is_credit with
  | some _, none => false
  | some rc, some c => c == rc
  | none, _ => true

/-- Matching condition stated by claim C4: pattern contained in the
uppercased description, amount qualifier within 0.01 when present, credit
qualifier equal to the transaction flag when present. -/
def indicatorPasses (du : String) (amount : Option ℚ) (is_credit : Option Bool)
    (r : CategoryIndicator) : Bool :=
  strContains du r.pattern && amountOk r.amount amount
    && creditOk r.is_credit is_credit

/-- The ranking stated by claim C4: amount-qualified rules outrank
unqualified ones regardless of pattern length; within a group, the longer
pattern comes first. -/
def specRank (a b : CategoryIndicator) : Prop :=
  (a.amount.isSome = true ∧ b.amount.isSome = false) ∨
  (a.amount.isSome = b.amount.isSome ∧ b.pattern.length ≤ a.pattern.length)

/-! Transfer matching, embedded from Database.find_transfer_by_description
and Database.add_transfer_indicator. -/

/-- Transfer rule row from src/database.py. -/
structure TransferIndicator where
  pattern : String
  source_account_id : Nat
  target_account_id : Nat
deriving DecidableEq

/-- Database.add_transfer_indicator: stores the uppercased pattern without
any validation of the pattern. -/
def add_transfer_indicator (rules : List TransferIndicator) (pattern : String)
    (srcId tgtId : Nat) : List TransferIndicator :=
  rules ++ [⟨strUpper pattern, srcId, tgtId⟩]

/-- The match list built by Database.find_transfer_by_description: rules of
the resident source account whose pattern is contained in the uppercased
description, in store order. -/
def transferMatches (rules : List TransferIndicator) (description : String)
    (srcId : Nat) : List TransferIndicator :=
  (rules.filter (fun r => r.source_account_id == srcId)).filter
    (fun r => strContains (strUpper description) r.pattern)

/-- Python max keyed by pattern length: replaces the current best only on a
strictly longer pattern, hence returns the first element of maximal length. -/
def pickBest (m : TransferIndicator) (ms : List TransferIndicator) :
    TransferIndicator :=
  ms.foldl (fun best r =>
    if r.pattern.length > best.pattern.length then r else best) m

/-- Database.find_transfer_by_description: None when no rule matches,
otherwise the target account of the max-length match. -/
def find_transfer_by_description (rules : List TransferIndicator)
    (description : String) (srcId : Nat) : Option Nat :=
  match transferMatches rules description srcId with
  | [] => none
  | m :: ms => some (pickBest m ms).target_account_id

/-- Largest pattern length of a rule list. -/
def maxPatLen : List TransferIndicator → Nat
  | [] => 0
  | r :: rest => max r.pattern.length (maxPatLen rest)

/-! CSV import pipeline, embedded from CSVParser.import_transactions and
Database.expense_exists. -/

/-- A parsed CSV row as produced by CSVParser.parse_zkb_statement. -/
structure RawTrans where
  date : Nat
  description : String
  amount : ℚ
  is_credit : Bool
  reference : String
deriving DecidableEq

/-- Rule store and resident main account visible to the import loop. -/
structure ImportCtx where
  catRules : List CategoryIndicator
  transferRules : List TransferIndicator
  mainId : Nat
deriving DecidableEq

/-- Database.expense_exists: exact match on date, description and amount. -/
def expense_exists (l : List Expense) (d : Nat) (desc : String) (amt : ℚ) :
    Bool :=
  l.any (fun e =>
    e.date == d && e.description == desc && decide (e.amount = amt))

/-- The expense row committed by CSVParser.import_transactions for one raw
record: the auto category is dropped when a transfer is detected, and the
resident main account is recorded as source in every case, the matched
counterparty as target. -/
def commitExpense (ctx : ImportCtx) (nid : Nat) (t : RawTrans) : Expense :=
  let category := find_category_by_description ctx.catRules t.description
    (some t.amount) (some t.is_credit)
  let target := find_transfer_by_description ctx.transferRules t.description
    ctx.mainId
  { id := nid, date := t.date, description := t.description,
    amount := t.amount, is_credit := t.is_credit,
    category_id := if target.isSome then none else category,
    account_id := some ctx.mainId,
    is_transfer := target.isSome,
    target_account_id := target }

/-- Result of one import run. -/
structure ImportResult where
  expenses : List Expense
  nextId : Nat
  imported : Nat
  skipped : Nat
deriving DecidableEq

/-- The loop of CSVParser.import_transactions: skip exact duplicates,
otherwise classify and insert. -/
def importGo (ctx : ImportCtx) :
    List RawTrans → List Expense → Nat → Nat → Nat → ImportResult
  | [], l, nid, imp, skp => ⟨l, nid, imp, skp⟩
  | t :: rest, l, nid, imp, skp =>
    if expense_exists l t.date t.description t.amount then
      importGo ctx rest l nid imp (skp + 1)
    else
      importGo ctx rest (l ++ [commitExpense ctx nid t]) (nid + 1) (imp + 1) skp

/-- CSVParser.import_transactions over already parsed records. -/
def import_transactions (ctx : ImportCtx) (l : List Expense) (nid : Nat)
    (batch : List RawTrans) : ImportResult :=
  importGo ctx batch l nid 0 0

/-- Context for the import-direction evidence: resident main account 1 and
one transfer rule from account 1 to account 2 with pattern TOPAY. -/
def c3Ctx : ImportCtx := ⟨[], [⟨"TOPAY", 1, 2⟩], 1⟩

/-- A credit transaction whose description matches the transfer rule. -/
def c3Credit : RawTrans := ⟨5, "TOPAY SAVINGS", 30, true, ""⟩

/-! Categorization mutators, embedded from Database.update_expense_category,
Database.get_uncategorized_expenses and the categorizer transfer commit. -/

/-- Database.update_expense_category: set the category and commit; there is
no check of the is_transfer flag and no error path anywhere. -/
def update_expense_category (e : Expense) (cid : Nat) : Expense :=
  { e with category_id := some cid }

/-- Database.get_uncategorized_expenses: uncategorized non-transfers in
chronological order. -/
def get_uncategorized_expenses (l : List Expense) : List Expense :=
  sortExpenses (l.filter (fun e =>
    e.category_id == none && e.is_transfer == false))

/-- A committed transfer of 40 from account 1 to account 2. -/
def c6Transfer : Expense := ⟨7, 3, "MOVE TO SAVINGS", 40, false, none, some 1, true, some 2⟩

/-! Account management, embedded from Database.add_account,
Database.get_main_account and Database.set_main_account. -/

/-- Database.get_main_account: the first account flagged as main. -/
def get_main_account (l : List Account) : Option Account :=
  l.find? (fun a => a.is_main)

/-- The unset step shared by add_account and set_main_account: flip the
is_main flag of the first main account off, when one exists. -/
def unsetMain : List Account → List Account
  | [] => []
  | a :: rest =>
    if a.is_main then { a with is_main := false } :: rest
    else a :: unsetMain rest

/-- Account table plus the autoincrement counter. -/
structure AccountsState where
  accounts : List Account
  nextId : Nat
deriving DecidableEq

/-- Database.add_account: when the new account is flagged main, first unset
the existing main account, then insert the new row. -/
def add_account (s : AccountsState) (name : String) (is_main : Bool) :
    AccountsState :=
  ⟨(if is_main then unsetMain s.accounts else s.accounts)
      ++ [⟨s.nextId, name, is_main, 0⟩],
    s.nextId + 1⟩

/-- Database.set_main_account: unset the existing main account, then flag the
given account as main, in one commit. -/
def set_main_account (s : AccountsState) (aid : Nat) : AccountsState :=
  ⟨(unsetMain s.accounts).map (fun a =>
      if a.id = aid then { a with is_main := true } else a),
    s.nextId⟩

/-- The account operations named by claim C9. -/
inductive AccountOp where
  | add (name : String) (is_main : Bool)
  | setMain (aid : Nat)
deriving DecidableEq

def applyAccountOp (s : AccountsState) : AccountOp → AccountsState
  | .add name is_main => add_account s name is_main
  | .setMain aid => set_main_account s aid

/-- Run a sequence of account operations from the empty store. -/
def runAccountOps (ops : List AccountOp) : AccountsState :=
  ops.foldl applyAccountOp ⟨[], 1⟩

/-- Number of accounts flagged main. -/
def mainCount (l : List Account) : Nat :=
  (l.filter (fun a => a.is_main)).length

/-- Data invariant of the account store: ids below the counter, ids distinct,
at most one main account. -/
def AccInv (s : AccountsState) : Prop :=
  (∀ a ∈ s.accounts, a.id < s.nextId) ∧
  (s.accounts.map (fun a => a.id)).Nodup ∧
  mainCount s.accounts ≤ 1

theorem gabStep_eq_add (aid : Nat) (b : ℚ) (e : Expense) :
    gabStep aid b e = b + contrib aid e := by
  unfold gabStep contrib
  split_ifs <;> ring

theorem foldl_gabStep (aid : Nat) (l : List Expense) (b : ℚ) :
    l.foldl (gabStep aid) b = b + (l.map (contrib aid)).sum := by
  induction l generalizing b with
  | nil => simp
  | cons e rest ih =>
    simp only [List.foldl_cons, List.map_cons, List.sum_cons, gabStep_eq_add, ih]
    ring

theorem sum_contrib_sort (aid : Nat) (l : List Expense) :
    ((sortExpenses l).map (contrib aid)).sum = (l.map (contrib aid)).sum :=
  ((List.perm_insertionSort expLe l).map (contrib aid)).sum_eq

theorem contrib_eq_zero_of_untouched (aid : Nat) (e : Expense)
    (h : touches aid e = false) :
    contrib aid e = 0 := by
  simp only [touches, Bool.or_eq_false_iff, beq_eq_false_iff_ne, ne_eq] at h
  simp [contrib, h.1, h.2]

theorem sum_contrib_filter (aid : Nat) (l : List Expense) :
    ((l.filter (touches aid)).map (contrib aid)).sum
      = (l.map (contrib aid)).sum := by
  induction l with
  | nil => rfl
  | cons e rest ih =>
    by_cases h : touches aid e = true
    · simp [List.filter_cons, h, ih]
    · have h0 : contrib aid e = 0 :=
        contrib_eq_zero_of_untouched aid e (by simpa using h)
      simp [List.filter_cons, h, ih, h0]

/-- The balance computed by Database.get_account_balance is the sum of the
per-transaction contributions, independent of order and filtering. -/
theorem gab_eq_sum (aid : Nat) (l : List Expense) :
    get_account_balance aid l = (l.map (contrib aid)).sum := by
  unfold get_account_balance
  by_cases h : (sortExpenses (l.filter (touches aid))).isEmpty
  · have h2 : sortExpenses (l.filter (touches aid)) = [] := by
      simpa [List.isEmpty_iff] using h
    have h3 : ((sortExpenses (l.filter (touches aid))).map (contrib aid)).sum
        = (l.map (contrib aid)).sum := by
      rw [sum_contrib_sort, sum_contrib_filter]
    rw [h2] at h3
    rw [if_pos h]
    simpa using h3
  · rw [if_neg h, foldl_gabStep, sum_contrib_sort, sum_contrib_filter, zero_add]

/-- C1: the balance reconciliation invariant I1 fails on the code.  At the
failing input, a single plain debit of 50 recorded on account A by
Database.add_expense leaves the stored balance column at 0 while the
balance recomputed from the transaction history is -50, so the stored and
recomputed balances already disagree after the very first mutating
operation. -/
theorem stored_vs_recomputed_diverge :
    storedBalance (runLedgerOps c1Init
      [LedgerOp.addExp 0 "GROCERIES" 50 false none (some 1) false none]) 1 = 0 ∧
    get_account_balance 1 (runLedgerOps c1Init
      [LedgerOp.addExp 0 "GROCERIES" 50 false none (some 1) false none]).expenses
      = -50 := by
  constructor
  · rfl
  · have h : (runLedgerOps c1Init
        [LedgerOp.addExp 0 "GROCERIES" 50 false none (some 1) false none]).expenses
        = [⟨1, 0, "GROCERIES", 50, false, none, some 1, false, none⟩] := rfl
    rw [h, gab_eq_sum]
    norm_num [contrib, truthyId]

theorem gab_append_single (aid : Nat) (l : List Expense) (e : Expense) :
    get_account_balance aid (l ++ [e])
      = get_account_balance aid l + contrib aid e := by
  rw [gab_eq_sum, gab_eq_sum, List.map_append, List.sum_append]
  simp

theorem delete_add_cancel (s : LedgerState) (d : Nat) (desc : String) (amt : ℚ)
    (ic : Bool) (cat acct : Option Nat) (itr : Bool) (tgt : Option Nat)
    (h : ∀ x ∈ s.expenses, x.id ≠ s.nextId) :
    (ledgerDeleteExpense (ledgerAddExpense s d desc amt ic cat acct itr tgt)
      s.nextId).expenses = s.expenses := by
  simp only [ledgerDeleteExpense, ledgerAddExpense, List.filter_append,
    List.filter_cons, List.filter_nil, bne_self_eq_false, Bool.false_eq_true,
    if_false, List.append_nil]
  exact List.filter_eq_self.mpr (fun x hx => by simpa using h x hx)

/-- C2: delete reverses exactly.  In general, adding any transaction and then
deleting it restores every recomputed account balance (and the addition
changes the balance by exactly the signed contribution of the transaction);
concretely, a debit of 50 from A takes the balance of A to -50 and deleting
it returns it to 0, and a transfer of 30 from A to B takes A to -30 and B to
+30 and deleting it returns both to 0.  Balance here is the recomputed
balance of Database.get_account_balance, the read path of the application;
Database.delete_expense only removes the row, which on this derivation is
exactly the algebraic inverse of the recording. -/
theorem delete_reverses_exactly :
    (∀ (s : LedgerState) (d : Nat) (desc : String) (amt : ℚ) (ic : Bool)
        (cat acct : Option Nat) (itr : Bool) (tgt : Option Nat) (aid : Nat),
      (∀ x ∈ s.expenses, x.id ≠ s.nextId) →
      get_account_balance aid
          (ledgerAddExpense s d desc amt ic cat acct itr tgt).expenses
        = get_account_balance aid s.expenses
          + contrib aid ⟨s.nextId, d, desc, amt, ic, cat, acct, itr, tgt⟩ ∧
      get_account_balance aid
          (ledgerDeleteExpense (ledgerAddExpense s d desc amt ic cat acct itr tgt)
            s.nextId).expenses
        = get_account_balance aid s.expenses) ∧
    (get_account_balance 1 c2Debit.expenses = -50 ∧
     get_account_balance 1 (ledgerDeleteExpense c2Debit 1).expenses = 0) ∧
    (get_account_balance 1 c2Transfer.expenses = -30 ∧
     get_account_balance 2 c2Transfer.expenses = 30 ∧
     get_account_balance 1 (ledgerDeleteExpense c2Transfer 1).expenses = 0 ∧
     get_account_balance 2 (ledgerDeleteExpense c2Transfer 1).expenses = 0) := by
  refine ⟨?_, ⟨?_, ?_⟩, ?_, ?_, ?_, ?_⟩
  · intro s d desc amt ic cat acct itr tgt aid h
    constructor
    · exact gab_append_single aid s.expenses _
    · rw [delete_add_cancel s d desc amt ic cat acct itr tgt h]
  · rw [show c2Debit.expenses
        = [⟨1, 0, "RENT", 50, false, none, some 1, false, none⟩] from rfl,
      gab_eq_sum]
    norm_num [contrib, truthyId]
  · rw [show (ledgerDeleteExpense c2Debit 1).expenses = [] from rfl, gab_eq_sum]
    rfl
  · rw [show c2Transfer.expenses
        = [⟨1, 0, "MOVE", 30, false, none, some 1, true, some 2⟩] from rfl,
      gab_eq_sum]
    norm_num [contrib, truthyId]
  · rw [show c2Transfer.expenses
        = [⟨1, 0, "MOVE", 30, false, none, some 1, true, some 2⟩] from rfl,
      gab_eq_sum]
    norm_num [contrib, truthyId]
  · rw [show (ledgerDeleteExpense c2Transfer 1).expenses = [] from rfl, gab_eq_sum]
    rfl
  · rw [show (ledgerDeleteExpense c2Transfer 1).expenses = [] from rfl, gab_eq_sum]
    rfl

/-- Concrete instantiation of the universally quantified part of the
preceding theorem, discharging its freshness hypothesis. -/
theorem delete_reverses_exactly_witness :
    get_account_balance 1
        (ledgerDeleteExpense
          (ledgerAddExpense c2Start 0 "RENT" 50 false none (some 1) false none)
          1).expenses
      = get_account_balance 1 c2Start.expenses :=
  (delete_reverses_exactly.1 c2Start 0 "RENT" 50 false none (some 1) false none 1
    (by intro x hx; cases hx)).2

theorem ewbStep_map (m : Nat → ℚ) (e : Expense) (a : Nat)
    (h : SrcTgtSound e) :
    (ewbStep m e).1 a = m a + contrib a e := by
  obtain ⟨⟨⟨s, hsrc, hspos⟩, hT⟩, hne⟩ := h
  have hs0 : s ≠ 0 := Nat.pos_iff_ne_zero.mp hspos
  by_cases hitr : e.is_transfer = true
  · rw [if_pos hitr] at hT
    obtain ⟨t, htgt, htpos⟩ := hT
    have ht0 : t ≠ 0 := Nat.pos_iff_ne_zero.mp htpos
    have hts : ¬ t = s := fun hc => hne hitr (by rw [htgt, hsrc, hc])
    have hst : ¬ s = t := fun hc => hts hc.symm
    by_cases has : a = s
    · subst has
      simp [ewbStep, contrib, hsrc, htgt, hitr, truthyId, hs0, ht0, hts, hst,
        Function.update_apply, sub_eq_add_neg]
    · have hsa : ¬ s = a := fun hc => has hc.symm
      by_cases hat : a = t
      · subst hat
        simp [ewbStep, contrib, hsrc, htgt, hitr, truthyId, hs0, ht0, hts,
          hst, hsa, has, Function.update_apply]
      · have hta : ¬ t = a := fun hc => hat hc.symm
        simp [ewbStep, contrib, hsrc, htgt, hitr, truthyId, hs0, ht0, hts,
          hst, hsa, has, hat, hta, Function.update_apply]
  · have hitr2 : e.is_transfer = false := by
      revert hitr; cases e.is_transfer <;> simp
    rw [if_neg (by simp [hitr2])] at hT
    by_cases has : a = s
    · subst has
      cases hic : e.is_credit <;>
        simp [ewbStep, contrib, hsrc, hT, hitr2, truthyId, hs0,
          Function.update_apply, hic, sub_eq_add_neg]
    · have hsa : ¬ s = a := fun hc => has hc.symm
      cases hic : e.is_credit <;>
        simp [ewbStep, contrib, hsrc, hT, hitr2, truthyId, hs0,
          Function.update_apply, hsa, has, hic]

theorem ewbGo_final (l : List Expense) (m : Nat → ℚ) (a : Nat)
    (h : ∀ e ∈ l, SrcTgtSound e) :
    (ewbGo m l).2 a = m a + (l.map (contrib a)).sum := by
  induction l generalizing m with
  | nil => simp [ewbGo]
  | cons e rest ih =>
    have h1 := ewbStep_map m e a (h e (List.mem_cons_self e rest))
    have h2 := ih (ewbStep m e).1 (fun x hx => h x (List.mem_cons_of_mem e hx))
    show (ewbGo (ewbStep m e).1 rest).2 a = _
    rw [h2, h1]
    simp only [List.map_cons, List.sum_cons]
    ring

/-- C10 (amended): for every account and every transaction list in which each
transaction has a source account, has a target account set exactly when its
is_transfer flag is true, and is not a self-transfer, the balance computed by
get_account_balance equals the final running balance accumulated for that
account by get_expenses_with_balance.  (The no-self-transfer hypothesis is
forced by the counterexample below; it matches invariant I3 of the spec.) -/
theorem balance_derivations_agree (l : List Expense) (a : Nat)
    (h : ∀ e ∈ l, SrcTgtSound e) :
    get_account_balance a l = ewbFinalBalances l a := by
  rw [gab_eq_sum, ewbFinalBalances,
    ewbGo_final _ _ _ (fun e he => h e (by
      simpa [sortExpenses] using (List.mem_insertionSort expLe).mp he))]
  rw [zero_add, sum_contrib_sort]

/-- Concrete instantiation of the agreement theorem on a one-element history,
discharging its well-formedness hypothesis. -/
theorem balance_derivations_agree_witness :
    get_account_balance 1 [⟨1, 0, "RENT", 50, false, none, some 1, false, none⟩]
      = ewbFinalBalances [⟨1, 0, "RENT", 50, false, none, some 1, false, none⟩] 1 :=
  balance_derivations_agree _ 1 (by
    intro e he
    simp only [List.mem_singleton] at he
    subst he
    exact ⟨⟨⟨1, rfl, one_pos⟩, rfl⟩, by simp⟩)

/-- C10 counterexample: on a self-transfer, which the claim as stated allows,
the two derivations disagree: get_account_balance takes the source branch and
subtracts the amount once (-30), while the running-balance loop of
get_expenses_with_balance subtracts and then re-adds it on the same map key,
ending at 0. -/
theorem balance_derivations_disagree :
    SrcTgtConsistent c10SelfTransfer ∧
    get_account_balance 1 [c10SelfTransfer] = -30 ∧
    ewbFinalBalances [c10SelfTransfer] 1 = 0 := by
  refine ⟨⟨⟨1, rfl, one_pos⟩, ⟨1, rfl, one_pos⟩⟩, ?_, ?_⟩
  · rw [gab_eq_sum]
    norm_num [contrib, c10SelfTransfer, truthyId]
  · simp only [ewbFinalBalances, sortExpenses, List.insertionSort,
      List.orderedInsert, ewbGo, ewbStep, c10SelfTransfer, truthyId]
    norm_num [Function.update_apply]

theorem amountOk_not_guard (ramt amount : Option ℚ) :
    amountOk ramt amount = !(amountGuard ramt amount) := by
  rcases ramt with _ | ra
  · rcases amount with _ | a <;> rfl
  · rcases amount with _ | a
    · rfl
    · show decide (|a - ra| ≤ (1 : ℚ)/100)
          = !(decide ((1 : ℚ)/100 < |a - ra|))
      by_cases h : |a - ra| ≤ (1 : ℚ)/100
      · rw [decide_eq_true h, decide_eq_false (not_lt.mpr h)]
        rfl
      · rw [decide_eq_false h, decide_eq_true (not_le.mp h)]
        rfl

theorem creditOk_not_guard (ric is_credit : Option Bool) :
    creditOk ric is_credit = !(creditGuard ric is_credit) := by
  rcases ric with _ | rc
  · rcases is_credit with _ | c <;> rfl
  · rcases is_credit with _ | c
    · rfl
    · cases rc <;> cases c <;> rfl

theorem passes_eq_guards (du : String) (amount : Option ℚ)
    (is_credit : Option Bool) (r : CategoryIndicator) :
    indicatorPasses du amount is_credit r
      = (strContains du r.pattern && !(amountGuard r.amount amount)
          && !(creditGuard r.is_credit is_credit)) := by
  unfold indicatorPasses
  rw [amountOk_not_guard, creditOk_not_guard]

theorem scan_eq_find (du : String) (amount : Option ℚ)
    (is_credit : Option Bool) (l : List CategoryIndicator) :
    scanIndicators du amount is_credit l
      = (l.find? (indicatorPasses du amount is_credit)).map
          (fun r => r.category_id) := by
  induction l with
  | nil => rfl
  | cons r rest ih =>
    by_cases h1 : strContains du r.pattern = true
    · by_cases h2 : amountGuard r.amount amount = true
      · simp [scanIndicators, h1, h2, ih, List.find?_cons, passes_eq_guards]
      · by_cases h3 : creditGuard r.is_credit is_credit = true
        · simp [scanIndicators, h1, h2, h3, ih, List.find?_cons,
            passes_eq_guards]
        · simp [scanIndicators, h1, h2, h3, List.find?_cons, passes_eq_guards]
    · simp [scanIndicators, h1, ih, List.find?_cons, passes_eq_guards]

theorem catOrder_specRank (a b : CategoryIndicator) (h : catOrder a b) :
    specRank a b := by
  unfold catOrder amtKey at h
  unfold specRank
  cases ha : a.amount.isSome <;> cases hb : b.amount.isSome <;>
    simp [ha, hb] at h ⊢ <;> omega

theorem ranked_sorted (rules : List CategoryIndicator) :
    List.Sorted specRank (rankedIndicators rules) :=
  (List.sorted_insertionSort catOrder rules).imp
    (fun h => catOrder_specRank _ _ h)

/-- C4: for every description, amount and credit flag, category resolution
scans the rules ranked first by presence of an amount qualifier and then by
pattern length descending, and returns the category of the first rule whose
pattern is a substring of the uppercased description and whose amount
qualifier (within 0.01) and credit qualifier (equality) are satisfied when
present; it returns none exactly when no ranked rule passes. -/
theorem category_matching_priority (rules : List CategoryIndicator)
    (description : String) (a : ℚ) (c : Bool) :
    List.Sorted specRank (rankedIndicators rules) ∧
    find_category_by_description rules description (some a) (some c)
      = ((rankedIndicators rules).find?
          (indicatorPasses (strUpper description) (some a) (some c))).map
          (fun r => r.category_id) ∧
    (find_category_by_description rules description (some a) (some c) = none ↔
      ∀ r ∈ rankedIndicators rules,
        indicatorPasses (strUpper description) (some a) (some c) r = false) := by
  refine ⟨ranked_sorted rules, scan_eq_find _ _ _ _, ?_⟩
  rw [find_category_by_description, scan_eq_find]
  simp [List.find?_eq_none]

theorem find_max_aux (M : Nat) (l : List TransferIndicator)
    (m : TransferIndicator) (hM : M = maxPatLen (m :: l)) :
    (m :: l).find? (fun r => decide (M ≤ r.pattern.length))
      = some (pickBest m l) := by
  induction l generalizing m with
  | nil =>
    simp only [maxPatLen, Nat.max_zero] at hM
    subst hM
    simp [List.find?, pickBest]
  | cons r rest ih =>
    have hM2 : M = max m.pattern.length (max r.pattern.length (maxPatLen rest)) := by
      simpa [maxPatLen] using hM
    by_cases hlt : m.pattern.length < r.pattern.length
    · have hM3 : M = maxPatLen (r :: rest) := by
        simp only [maxPatLen]
        omega
      have hpm : decide (M ≤ m.pattern.length) = false :=
        decide_eq_false (by omega)
      have hbest : pickBest m (r :: rest) = pickBest r rest := by
        simp [pickBest, List.foldl_cons, hlt]
      rw [hbest, ← ih r hM3]
      simp only [List.find?_cons, hpm]
    · have hM3 : M = maxPatLen (m :: rest) := by
        simp only [maxPatLen]
        omega
      have hbest : pickBest m (r :: rest) = pickBest m rest := by
        simp [pickBest, List.foldl_cons, hlt]
      rw [hbest]
      have h1 := ih m hM3
      by_cases hpm : decide (M ≤ m.pattern.length) = true
      · simp only [List.find?_cons, hpm] at h1 ⊢
        exact h1
      · have hpm2 : decide (M ≤ m.pattern.length) = false := by
          simpa using hpm
        have hMm : ¬ (M ≤ m.pattern.length) := by
          simpa using hpm2
        have hpr : decide (M ≤ r.pattern.length) = false :=
          decide_eq_false (by omega)
        simp only [List.find?_cons, hpm2, hpr] at h1 ⊢
        exact h1

/-- C5: for every description and resident account, transfer resolution
keeps only rules whose source account is the resident account and whose
pattern is contained in the uppercased description, and returns the target
account of the first such rule of maximal pattern length (longest wins, ties
broken by store order); it returns none exactly when no rule matches.  The
rules ZKB and ZKB VISA against description ZKB VISA PURCHASE resolve to the
ZKB VISA rule in either store order. -/
theorem transfer_matching_longest_wins :
    (∀ (rules : List TransferIndicator) (description : String) (srcId : Nat),
      find_transfer_by_description rules description srcId
        = ((transferMatches rules description srcId).find? (fun r =>
            decide (maxPatLen (transferMatches rules description srcId)
              ≤ r.pattern.length))).map (fun r => r.target_account_id)) ∧
    (∀ (rules : List TransferIndicator) (description : String) (srcId : Nat),
      find_transfer_by_description rules description srcId = none ↔
        transferMatches rules description srcId = []) ∧
    find_transfer_by_description
      [⟨"ZKB", 1, 2⟩, ⟨"ZKB VISA", 1, 3⟩] "ZKB VISA PURCHASE" 1 = some 3 ∧
    find_transfer_by_description
      [⟨"ZKB VISA", 1, 3⟩, ⟨"ZKB", 1, 2⟩] "ZKB VISA PURCHASE" 1 = some 3 := by
  have hchar : ∀ (rules : List TransferIndicator) (description : String)
      (srcId : Nat),
      find_transfer_by_description rules description srcId
        = ((transferMatches rules description srcId).find? (fun r =>
            decide (maxPatLen (transferMatches rules description srcId)
              ≤ r.pattern.length))).map (fun r => r.target_account_id) := by
    intro rules description srcId
    unfold find_transfer_by_description
    cases h : transferMatches rules description srcId with
    | nil => simp [h]
    | cons m ms =>
      rw [find_max_aux (maxPatLen (m :: ms)) ms m rfl]
      rfl
  refine ⟨hchar, ?_, by decide, by decide⟩
  intro rules description srcId
  unfold find_transfer_by_description
  cases h : transferMatches rules description srcId with
  | nil => simp
  | cons m ms => simp

theorem exists_append (l l2 : List Expense) (d : Nat) (desc : String)
    (amt : ℚ) (h : expense_exists l d desc amt = true) :
    expense_exists (l ++ l2) d desc amt = true := by
  simp only [expense_exists, List.any_append, Bool.or_eq_true]
  exact Or.inl h

theorem importGo_appends (ctx : ImportCtx) (batch : List RawTrans) :
    ∀ (l : List Expense) (nid imp skp : Nat),
      ∃ suf, (importGo ctx batch l nid imp skp).expenses = l ++ suf := by
  induction batch with
  | nil => intro l nid imp skp; exact ⟨[], by simp [importGo]⟩
  | cons t rest ih =>
    intro l nid imp skp
    by_cases h : expense_exists l t.date t.description t.amount = true
    · obtain ⟨suf, hsuf⟩ := ih l nid imp (skp + 1)
      exact ⟨suf, by simp [importGo, h, hsuf]⟩
    · obtain ⟨suf, hsuf⟩ := ih (l ++ [commitExpense ctx nid t]) (nid + 1)
        (imp + 1) skp
      refine ⟨[commitExpense ctx nid t] ++ suf, ?_⟩
      simp only [importGo, h, if_false, Bool.false_eq_true]
      rw [hsuf, List.append_assoc]

theorem importGo_all_exist (ctx : ImportCtx) (batch : List RawTrans) :
    ∀ (l : List Expense) (nid imp skp : Nat) (t : RawTrans), t ∈ batch →
      expense_exists (importGo ctx batch l nid imp skp).expenses
        t.date t.description t.amount = true := by
  induction batch with
  | nil => intro l nid imp skp t ht; cases ht
  | cons x rest ih =>
    intro l nid imp skp t ht
    by_cases h : expense_exists l x.date x.description x.amount = true
    · rcases List.mem_cons.mp ht with ht1 | ht2
      · subst ht1
        obtain ⟨suf, hsuf⟩ := importGo_appends ctx rest l nid imp (skp + 1)
        simp only [importGo, h, if_true]
        rw [hsuf]
        exact exists_append l suf _ _ _ h
      · simp only [importGo, h, if_true]
        exact ih l nid imp (skp + 1) t ht2
    · have hnew : expense_exists (l ++ [commitExpense ctx nid x])
          x.date x.description x.amount = true := by
        simp [expense_exists, List.any_append, commitExpense]
      rcases List.mem_cons.mp ht with ht1 | ht2
      · subst ht1
        obtain ⟨suf, hsuf⟩ := importGo_appends ctx rest
          (l ++ [commitExpense ctx nid t]) (nid + 1) (imp + 1) skp
        simp only [importGo, h, if_false, Bool.false_eq_true]
        rw [hsuf]
        exact exists_append _ suf _ _ _ hnew
      · simp only [importGo, h, if_false, Bool.false_eq_true]
        exact ih (l ++ [commitExpense ctx nid x]) (nid + 1) (imp + 1) skp t ht2

theorem importGo_all_dup (ctx : ImportCtx) (batch : List RawTrans) :
    ∀ (l : List Expense) (nid imp skp : Nat),
      (∀ t ∈ batch, expense_exists l t.date t.description t.amount = true) →
      importGo ctx batch l nid imp skp = ⟨l, nid, imp, skp + batch.length⟩ := by
  induction batch with
  | nil => intro l nid imp skp _; simp [importGo]
  | cons t rest ih =>
    intro l nid imp skp h
    have ht := h t (List.mem_cons_self t rest)
    simp only [importGo, ht, if_true]
    rw [ih l nid imp (skp + 1) (fun x hx => h x (List.mem_cons_of_mem t hx))]
    congr 1
    simp only [List.length_cons]
    omega

/-- C8: the duplicate check is an exact match on the (date, description,
amount) triple, and importing the same batch a second time imports nothing,
skips the whole batch, and leaves the transaction history - hence every
recomputed account balance - unchanged. -/
theorem import_idempotent (ctx : ImportCtx) (l : List Expense) (nid : Nat)
    (batch : List RawTrans) :
    (∀ (d : Nat) (s : String) (amt : ℚ),
      expense_exists l d s amt = true ↔
        ∃ e ∈ l, e.date = d ∧ e.description = s ∧ e.amount = amt) ∧
    (import_transactions ctx
        (import_transactions ctx l nid batch).expenses
        (import_transactions ctx l nid batch).nextId batch).imported = 0 ∧
    (import_transactions ctx
        (import_transactions ctx l nid batch).expenses
        (import_transactions ctx l nid batch).nextId batch).skipped
      = batch.length ∧
    (import_transactions ctx
        (import_transactions ctx l nid batch).expenses
        (import_transactions ctx l nid batch).nextId batch).expenses
      = (import_transactions ctx l nid batch).expenses ∧
    ∀ aid, get_account_balance aid
        (import_transactions ctx
          (import_transactions ctx l nid batch).expenses
          (import_transactions ctx l nid batch).nextId batch).expenses
      = get_account_balance aid
          (import_transactions ctx l nid batch).expenses := by
  have hdup : ∀ t ∈ batch,
      expense_exists (import_transactions ctx l nid batch).expenses
        t.date t.description t.amount = true :=
    fun t ht => importGo_all_exist ctx batch l nid 0 0 t ht
  have hrun : import_transactions ctx
      (import_transactions ctx l nid batch).expenses
      (import_transactions ctx l nid batch).nextId batch
      = ⟨(import_transactions ctx l nid batch).expenses,
         (import_transactions ctx l nid batch).nextId, 0, 0 + batch.length⟩ :=
    importGo_all_dup ctx batch _ _ 0 0 hdup
  refine ⟨?_, ?_, ?_, ?_, ?_⟩
  · intro d s amt
    simp [expense_exists, List.any_eq_true, Bool.and_eq_true, beq_iff_eq,
      decide_eq_true_eq, and_assoc]
  · rw [hrun]
  · rw [hrun]
    simp
  · rw [hrun]
  · intro aid
    rw [hrun]

/-- C3: the batch-import path breaks transfer directionality.  For a credit
transaction auto-detected as a transfer, CSVParser.import_transactions
records the resident main account as source and the matched counterparty as
target with no direction swap and no stored-balance update, so the
recomputed balances move money from the resident account to the
counterparty: resident ends at -30 and the counterparty at +30, the opposite
of the claimed direction for credits (counterparty decreases, resident
increases). -/
theorem import_credit_transfer_direction :
    (import_transactions c3Ctx [] 1 [c3Credit]).expenses
      = [⟨1, 5, "TOPAY SAVINGS", 30, true, none, some 1, true, some 2⟩] ∧
    get_account_balance 1 (import_transactions c3Ctx [] 1 [c3Credit]).expenses
      = -30 ∧
    get_account_balance 2 (import_transactions c3Ctx [] 1 [c3Credit]).expenses
      = 30 := by
  have h : (import_transactions c3Ctx [] 1 [c3Credit]).expenses
      = [⟨1, 5, "TOPAY SAVINGS", 30, true, none, some 1, true, some 2⟩] := by
    decide
  refine ⟨h, ?_, ?_⟩ <;> rw [h, gab_eq_sum] <;> norm_num [contrib, truthyId]

/-- C7: empty patterns are not rejected.  Evaluating the code at the failing
input: creating a category rule and a transfer rule with an empty pattern
succeeds and stores the rule, and the stored empty pattern then matches
every description, contradicting the claim that rule creation fails with a
validation error. -/
theorem empty_pattern_accepted :
    add_category_indicator [] "" 7 none none = [⟨"", none, none, 7⟩] ∧
    find_category_by_description (add_category_indicator [] "" 7 none none)
      "COMPLETELY UNRELATED" (some 10) (some false) = some 7 ∧
    add_transfer_indicator [] "" 1 2 = [⟨"", 1, 2⟩] ∧
    find_transfer_by_description (add_transfer_indicator [] "" 1 2)
      "ANYTHING AT ALL" 1 = some 2 := by
  refine ⟨by decide, by decide, by decide, by decide⟩

/-- C6 counterexample: assigning a category to a transfer raises no error at
all: update_expense_category returns a mutated transaction that is both a
transfer and categorized, violating invariant I2 instead of raising
ValidationError and leaving the transaction unchanged. -/
theorem categorize_transfer_no_error :
    (update_expense_category c6Transfer 5).is_transfer = true ∧
    (update_expense_category c6Transfer 5).category_id = some 5 ∧
    update_expense_category c6Transfer 5 ≠ c6Transfer := by
  refine ⟨rfl, rfl, by decide⟩

/-- C6 (amended): the code performs no mutual-exclusivity validation and
raises no ValidationError: update_expense_category assigns the category
unconditionally, even to a transfer, and the categorizer transfer commit
sets is_transfer unconditionally, preserving whatever category is present.
Exclusivity is maintained only structurally: the import path stores no
category when a transfer is detected, and the interactive loop draws its
candidates from get_uncategorized_expenses, which returns only uncategorized
non-transfers. -/
theorem mutual_exclusivity_unenforced :
    (∀ (e : Expense) (cid : Nat),
      (update_expense_category e cid).category_id = some cid ∧
      (update_expense_category e cid).is_transfer = e.is_transfer) ∧
    (∀ (e : Expense) (mainId otherId : Nat),
      (markExpense e mainId otherId).is_transfer = true ∧
      (markExpense e mainId otherId).category_id = e.category_id) ∧
    (∀ (ctx : ImportCtx) (nid : Nat) (t : RawTrans),
      (commitExpense ctx nid t).is_transfer = true →
      (commitExpense ctx nid t).category_id = none) ∧
    (∀ (l : List Expense) (e : Expense), e ∈ get_uncategorized_expenses l →
      e.category_id = none ∧ e.is_transfer = false) := by
  refine ⟨fun e cid => ⟨rfl, rfl⟩, fun e mainId otherId => ⟨rfl, rfl⟩,
    fun ctx nid t h => ?_, fun l e he => ?_⟩
  · simp only [commitExpense] at h ⊢
    rw [if_pos h]
  · have he2 : e ∈ l.filter (fun e =>
        e.category_id == none && e.is_transfer == false) := by
      simpa [get_uncategorized_expenses, sortExpenses]
        using (List.mem_insertionSort expLe).mp he
    have := List.of_mem_filter he2
    simpa using this

/-- Concrete instantiation of the amended-claim theorem, discharging the
transfer-detection and membership hypotheses. -/
theorem mutual_exclusivity_unenforced_witness :
    (update_expense_category c6Transfer 9).category_id = some 9 ∧
    (commitExpense c3Ctx 1 c3Credit).category_id = none ∧
    ((⟨2, 0, "COFFEE", 4, false, none, some 1, false, none⟩ : Expense).category_id = none ∧
     (⟨2, 0, "COFFEE", 4, false, none, some 1, false, none⟩ : Expense).is_transfer = false) :=
  ⟨(mutual_exclusivity_unenforced.1 c6Transfer 9).1,
   mutual_exclusivity_unenforced.2.2.1 c3Ctx 1 c3Credit (by decide),
   mutual_exclusivity_unenforced.2.2.2
     [⟨2, 0, "COFFEE", 4, false, none, some 1, false, none⟩]
     ⟨2, 0, "COFFEE", 4, false, none, some 1, false, none⟩ (by decide)⟩

theorem mainCount_eq_zero (l : List Account) :
    mainCount l = 0 ↔ ∀ a ∈ l, a.is_main = false := by
  simp only [mainCount, List.length_eq_zero, List.filter_eq_nil_iff]
  constructor
  · intro h a ha
    have := h a ha
    simpa using this
  · intro h a ha
    simp [h a ha]

theorem mainCount_unsetMain (l : List Account) (h : mainCount l ≤ 1) :
    mainCount (unsetMain l) = 0 := by
  induction l with
  | nil => rfl
  | cons a rest ih =>
    by_cases ha : a.is_main = true
    · simp only [unsetMain, ha, if_true]
      simp only [mainCount, List.filter_cons, ha, if_true,
        List.length_cons] at h
      have hrest : mainCount rest = 0 := by
        simp only [mainCount]
        omega
      simp only [mainCount, List.filter_cons, Bool.false_eq_true, if_false]
      exact hrest
    · have ha2 : a.is_main = false := by
        revert ha; cases a.is_main <;> simp
      simp only [unsetMain, ha2, Bool.false_eq_true, if_false]
      simp only [mainCount, List.filter_cons, ha2, Bool.false_eq_true,
        if_false] at h ⊢
      exact ih h

theorem unsetMain_ids (l : List Account) :
    (unsetMain l).map (fun a => a.id) = l.map (fun a => a.id) := by
  induction l with
  | nil => rfl
  | cons a rest ih =>
    by_cases ha : a.is_main = true
    · simp [unsetMain, ha]
    · have ha2 : a.is_main = false := by
        revert ha; cases a.is_main <;> simp
      simp [unsetMain, ha2, ih]

theorem mainCount_append (l1 l2 : List Account) :
    mainCount (l1 ++ l2) = mainCount l1 + mainCount l2 := by
  simp [mainCount, List.filter_append]

theorem setMain_count (aid : Nat) (l : List Account)
    (hall : ∀ a ∈ l, a.is_main = false)
    (hnd : (l.map (fun a => a.id)).Nodup) :
    mainCount (l.map (fun a =>
      if a.id = aid then { a with is_main := true } else a)) ≤ 1 := by
  induction l with
  | nil => simp [mainCount]
  | cons a rest ih =>
    rw [List.map_cons] at hnd ⊢
    have hcons := List.nodup_cons.mp hnd
    by_cases ha : a.id = aid
    · rw [if_pos ha]
      have hrest : mainCount (rest.map (fun a =>
          if a.id = aid then { a with is_main := true } else a)) = 0 := by
        rw [mainCount_eq_zero]
        intro b hb
        obtain ⟨b0, hb0, hb0eq⟩ := List.mem_map.mp hb
        have hbne : ¬ b0.id = aid := by
          intro hc
          exact hcons.1 (List.mem_map.mpr ⟨b0, hb0, by rw [hc, ha]⟩)
        rw [← hb0eq, if_neg hbne]
        exact hall b0 (List.mem_cons_of_mem a hb0)
      have hcount : mainCount ({ a with is_main := true } ::
          rest.map (fun a =>
            if a.id = aid then { a with is_main := true } else a))
          = mainCount (rest.map (fun a =>
              if a.id = aid then { a with is_main := true } else a)) + 1 := by
        simp [mainCount, List.filter_cons]
      rw [hcount, hrest]
    · rw [if_neg ha]
      have hzero : a.is_main = false := hall a (List.mem_cons_self a rest)
      have hcount : mainCount (a :: rest.map (fun a =>
          if a.id = aid then { a with is_main := true } else a))
          = mainCount (rest.map (fun a =>
              if a.id = aid then { a with is_main := true } else a)) := by
        simp [mainCount, List.filter_cons, hzero]
      rw [hcount]
      exact ih (fun b hb => hall b (List.mem_cons_of_mem a hb)) hcons.2

theorem accInv_apply (s : AccountsState) (op : AccountOp) (h : AccInv s) :
    AccInv (applyAccountOp s op) := by
  obtain ⟨hlt, hnd, hcnt⟩ := h
  cases op with
  | add name is_main =>
    cases is_main with
    | false =>
      refine ⟨?_, ?_, ?_⟩
      · intro a ha
        rcases List.mem_append.mp ha with h1 | h2
        · exact Nat.lt_succ_of_lt (hlt a h1)
        · simp only [List.mem_singleton] at h2
          subst h2
          exact Nat.lt_succ_self _
      · simp only [applyAccountOp, add_account, Bool.false_eq_true, if_false,
          List.map_append, List.map_cons, List.map_nil]
        rw [List.nodup_append]
        refine ⟨hnd, List.nodup_singleton _, ?_⟩
        intro x hx
        simp only [List.mem_singleton]
        obtain ⟨a, ha, haeq⟩ := List.mem_map.mp hx
        intro hc
        subst hc
        exact absurd (haeq ▸ hlt a ha) (lt_irrefl _)
      · simp only [applyAccountOp, add_account, Bool.false_eq_true, if_false]
        rw [mainCount_append]
        simpa [mainCount] using hcnt
    | true =>
      refine ⟨?_, ?_, ?_⟩
      · intro a ha
        simp only [applyAccountOp, add_account, if_true] at ha
        rcases List.mem_append.mp ha with h1 | h2
        · have hids : a.id ∈ s.accounts.map (fun a => a.id) := by
            rw [← unsetMain_ids]
            exact List.mem_map.mpr ⟨a, h1, rfl⟩
          obtain ⟨b, hb, hbeq⟩ := List.mem_map.mp hids
          exact hbeq ▸ Nat.lt_succ_of_lt (hlt b hb)
        · simp only [List.mem_singleton] at h2
          subst h2
          exact Nat.lt_succ_self _
      · simp only [applyAccountOp, add_account, if_true, List.map_append,
          List.map_cons, List.map_nil, unsetMain_ids]
        rw [List.nodup_append]
        refine ⟨hnd, List.nodup_singleton _, ?_⟩
        intro x hx
        simp only [List.mem_singleton]
        obtain ⟨a, ha, haeq⟩ := List.mem_map.mp hx
        intro hc
        subst hc
        exact absurd (haeq ▸ hlt a ha) (lt_irrefl _)
      · simp only [applyAccountOp, add_account, if_true]
        rw [mainCount_append, mainCount_unsetMain s.accounts hcnt]
        simp [mainCount]
  | setMain aid =>
    refine ⟨?_, ?_, ?_⟩
    · intro a ha
      simp only [applyAccountOp, set_main_account] at ha
      obtain ⟨b, hb, hbeq⟩ := List.mem_map.mp ha
      have hbid : b.id ∈ s.accounts.map (fun a => a.id) := by
        rw [← unsetMain_ids]
        exact List.mem_map.mpr ⟨b, hb, rfl⟩
      obtain ⟨c, hc, hceq⟩ := List.mem_map.mp hbid
      have haid : a.id = b.id := by
        rw [← hbeq]
        by_cases hbb : b.id = aid <;> simp [hbb]
      rw [haid, ← hceq]
      exact hlt c hc
    · simp only [applyAccountOp, set_main_account]
      have hids : (((unsetMain s.accounts).map (fun a =>
          if a.id = aid then { a with is_main := true } else a)).map
            (fun a => a.id))
          = s.accounts.map (fun a => a.id) := by
        rw [List.map_map, ← unsetMain_ids]
        apply List.map_congr_left
        intro a ha
        by_cases hbb : a.id = aid <;> simp [hbb]
      rw [hids]
      exact hnd
    · simp only [applyAccountOp, set_main_account]
      apply setMain_count
      · exact (mainCount_eq_zero _).mp (mainCount_unsetMain s.accounts hcnt)
      · rw [unsetMain_ids]
        exact hnd

theorem accInv_run (ops : List AccountOp) :
    AccInv (runAccountOps ops) := by
  have hgen : ∀ (ops : List AccountOp) (s : AccountsState), AccInv s →
      AccInv (ops.foldl applyAccountOp s) := by
    intro ops
    induction ops with
    | nil => intro s hs; exact hs
    | cons op rest ih =>
      intro s hs
      exact ih (applyAccountOp s op) (accInv_apply s op hs)
  refine hgen ops ⟨[], 1⟩ ⟨?_, ?_, ?_⟩
  · intro a ha; cases ha
  · simp
  · simp [mainCount]

/-- C9: starting from the empty store, after any sequence of add-account
(with or without the main flag) and set-main operations at most one account
is flagged main; and within a single set-main operation the previously main
account is unset, so that afterwards only the targeted account can be main. -/
theorem single_main_account :
    (∀ ops : List AccountOp, mainCount (runAccountOps ops).accounts ≤ 1) ∧
    (∀ (s : AccountsState) (aid : Nat) (a : Account),
      AccInv s → a ∈ (set_main_account s aid).accounts →
      a.is_main = true → a.id = aid) := by
  constructor
  · intro ops
    exact (accInv_run ops).2.2
  · intro s aid a hs ha hmain
    obtain ⟨hlt, hnd, hcnt⟩ := hs
    simp only [set_main_account] at ha
    obtain ⟨b, hb, hbeq⟩ := List.mem_map.mp ha
    have hbmain : b.is_main = false :=
      (mainCount_eq_zero _).mp (mainCount_unsetMain s.accounts hcnt) b hb
    by_cases hbb : b.id = aid
    · rw [← hbeq, if_pos hbb]
      exact hbb
    · rw [← hbeq, if_neg hbb] at hmain
      rw [hmain] at hbmain
      exact Bool.noConfusion hbmain

/-- Concrete instantiation of the single-main-account theorem, discharging
the invariant, membership and flag hypotheses. -/
theorem single_main_account_witness :
    mainCount (runAccountOps
      [AccountOp.add "A" true, AccountOp.add "B" true]).accounts ≤ 1 ∧
    (⟨2, "B", true, 0⟩ : Account).id = 2 :=
  ⟨single_main_account.1 [AccountOp.add "A" true, AccountOp.add "B" true],
   single_main_account.2 ⟨[⟨1, "A", true, 0⟩, ⟨2, "B", false, 0⟩], 3⟩ 2
     ⟨2, "B", true, 0⟩
     ⟨by decide, by decide, by decide⟩ (by decide) rfl⟩

end Expenditure

